import Mathlib

set_option maxHeartbeats 1000000

/- Verification of the cascades transformation-rule catalog in
planner/cascades/transformation_rules.go.  The rule functions below are
translated from that file.  Collaborator functions that live in the
expression, ranger, plannercore and memo packages (which are part of the
repository but not under src/) are modelled from the spec; each such
definition carries a doc comment saying so. -/

namespace Cascades

/-- A column of a relational schema, identified by its unique id; mirrors
expression.Column, which is compared by UniqueID. -/
structure Column where
  uid : Nat
deriving DecidableEq, Repr

/-- An output schema: an ordered list of columns, as expression.Schema. -/
abbrev Schema := List Column

/-- Constant scalar values: booleans, null, and integers. -/
inductive ScalarVal where
  | vBool (b : Bool)
  | vNull
  | vInt (i : Int)
deriving DecidableEq, Repr

/-- Expression trees following expression.Expression: column references,
constants, unary and binary scalar functions, and the session-variable
functions SetVar (assignVar) and GetVar. -/
inductive Expr where
  | col (c : Column)
  | const (v : ScalarVal)
  | func1 (name : String) (a : Expr)
  | func2 (name : String) (a b : Expr)
  | assignVar (v : String) (e : Expr)
  | getVar (v : String)
deriving DecidableEq, Repr

/-- Modelled from the spec: expression.HasAssignSetVarFunc, the detector for a
variable-assignment (SetVar) expression anywhere in the tree (the expression
package is not under src/). -/
def hasAssignSetVarFunc : Expr → Bool
  | .assignVar _ _ => true
  | .func1 _ a => hasAssignSetVarFunc a
  | .func2 _ a b => hasAssignSetVarFunc a || hasAssignSetVarFunc b
  | _ => false

/-- Modelled from the spec: expression.HasGetSetVarFunc, true when the tree
contains a SetVar or a GetVar function (the expression package is not under
src/). -/
def hasGetSetVarFunc : Expr → Bool
  | .assignVar _ _ => true
  | .getVar _ => true
  | .func1 _ a => hasGetSetVarFunc a
  | .func2 _ a b => hasGetSetVarFunc a || hasGetSetVarFunc b
  | _ => false

/-- Modelled from the spec: plannercore.ExprsHasSideEffects, true when some
expression of the list has an observable side effect, in particular a
variable assignment (plannercore is not under src/). -/
def exprsHasSideEffects (l : List Expr) : Bool :=
  l.any hasAssignSetVarFunc

/-- Index of a column inside a schema, as expression.Schema.ColumnIndex. -/
def schemaIdx (s : Schema) (c : Column) : Option Nat :=
  s.findIdx? (fun x => x == c)

/-- Modelled from the spec: expression.ColumnSubstitute, replacing each column
of the given schema by the projection expression at the same position (the
expression package is not under src/). -/
def columnSubstitute (s : Schema) (exprs : List Expr) : Expr → Expr
  | .col c =>
    match schemaIdx s c with
    | some i => (exprs[i]?).getD (.col c)
    | none => .col c
  | .const v => .const v
  | .func1 n a => .func1 n (columnSubstitute s exprs a)
  | .func2 n a b => .func2 n (columnSubstitute s exprs a) (columnSubstitute s exprs b)
  | .assignVar v e => .assignVar v (columnSubstitute s exprs e)
  | .getVar v => .getVar v

/-- Modelled from the spec: expression.ExtractColumns, the columns referenced
by an expression (the expression package is not under src/). -/
def extractColumns : Expr → List Column
  | .col c => [c]
  | .const _ => []
  | .func1 _ a => extractColumns a
  | .func2 _ a b => extractColumns a ++ extractColumns b
  | .assignVar _ e => extractColumns e
  | .getVar _ => []

/-- Function names the storage tier can evaluate, for the pushability
classifier. -/
def pushableName (n : String) : Bool :=
  n == "eq" || n == "lt" || n == "gt" || n == "ge" || n == "le" ||
  n == "plus" || n == "and" || n == "or"

/-- Modelled from the spec: the storage-tier expression-pushability
classifier used by expression.ExpressionsToPB (the expression package is not
under src/). -/
def pushableToStorage : Expr → Bool
  | .col _ => true
  | .const _ => true
  | .func1 n a => pushableName n && pushableToStorage a
  | .func2 n a b => pushableName n && pushableToStorage a && pushableToStorage b
  | .assignVar _ _ => false
  | .getVar _ => false

/-- Modelled from the spec: expression.ExpressionsToPB partitions a predicate
list into the storage-tier pushable part and the residual part (the
expression package is not under src/). -/
def expressionsToPB (conds : List Expr) : List Expr × List Expr :=
  (conds.filter pushableToStorage, conds.filter (fun c => !(pushableToStorage c)))

/-- Modelled from the spec: expression.ExtractFiltersFromDNFs; on a list that
is already a plain conjunction it acts as the identity (the expression
package is not under src/). -/
def extractFiltersFromDNFs (conds : List Expr) : List Expr := conds

/-- One step of constant folding for an equality of two constants. -/
def foldConstEq : Expr → Expr
  | .func2 n (.const a) (.const b) =>
    if n == "eq" then
      match a, b with
      | .vNull, _ => .const .vNull
      | _, .vNull => .const .vNull
      | x, y => .const (.vBool (x == y))
    else .func2 n (.const a) (.const b)
  | e => e

/-- Modelled from the spec: expression.PropagateConstant, constant
propagation over a condition list (the expression package is not under
src/). -/
def propagateConstant (conds : List Expr) : List Expr :=
  conds.map foldConstEq

/-- A constant-false or constant-null condition, the trigger of the
table-dual short circuit. -/
def isConstFalseOrNull : Expr → Bool
  | .const (.vBool false) => true
  | .const .vNull => true
  | _ => false

/-- Modelled from the spec: expression.RemoveDupExprs keeps the first
occurrence of every expression (the expression package is not under src/). -/
def removeDupExprsGo : List Expr → List Expr → List Expr
  | [], _ => []
  | a :: rest, seen =>
    if a ∈ seen then removeDupExprsGo rest seen
    else a :: removeDupExprsGo rest (a :: seen)

/-- Duplicate removal over a condition list, first occurrences kept. -/
def removeDupExprs (l : List Expr) : List Expr := removeDupExprsGo l []

/-- A condition usable as a table handle access condition: a comparison of
the handle column with a constant. -/
def isHandleAccessCond (h : Column) : Expr → Bool
  | .func2 n (.col c) (.const _) =>
    (n == "eq" || n == "lt" || n == "gt" || n == "ge" || n == "le") && c == h
  | _ => false

/-- Modelled from the spec: ranger.DetachCondsForColumn splits predicates
into key-range access conditions on the handle column and the remainder
(the ranger package is not under src/). -/
def detachCondsForColumn (conds : List Expr) (h : Column) : List Expr × List Expr :=
  (conds.filter (isHandleAccessCond h), conds.filter (fun c => !(isHandleAccessCond h c)))

/-- A condition usable as an index access condition: an equality between the
first index column and a constant. -/
def isIndexAccessCond (idxCols : List Column) : Expr → Bool
  | .func2 n (.col c) (.const _) =>
    n == "eq" && (match idxCols with
                  | c0 :: _ => c == c0
                  | [] => false)
  | _ => false

/-- The access-plan summary returned by the range/access layer. -/
structure DetachResult where
  accessConds : List Expr
  remainedConds : List Expr
  ranges : List Expr
  eqCondCount : Nat
deriving DecidableEq, Repr

/-- Modelled from the spec: ranger.DetachCondAndBuildRangeForIndex returns
the access-plan summary for an ordered index-column list: equality-condition
count, access conditions, key ranges and remainder; idempotent when
reapplied to its own prior output (the ranger package is not under src/). -/
def detachCondAndBuildRangeForIndex (conds : List Expr) (idxCols : List Column)
    (_idxColLens : List Nat) : DetachResult :=
  let access := conds.filter (isIndexAccessCond idxCols)
  let remained := conds.filter (fun c => !(isIndexAccessCond idxCols c))
  ⟨access, remained, access, access.length⟩

/-- Columns of an expression are all inside a schema. -/
def colsIn (s : Schema) (e : Expr) : Bool :=
  (extractColumns e).all (fun c => s.contains c)

/-- Modelled from the spec: plannercore.LogicalJoin.ExtractOnCondition
re-partitions a merged condition list into equi-join conditions, left-only
conditions, right-only conditions and residual other conditions
(plannercore is not under src/). -/
def extractOnCondition (conds : List Expr) (lS rS : Schema) :
    List Expr × List Expr × List Expr × List Expr :=
  match conds with
  | [] => ([], [], [], [])
  | e :: rest =>
    let r := extractOnCondition rest lS rS
    let asOther :=
      if colsIn lS e then (r.1, e :: r.2.1, r.2.2.1, r.2.2.2)
      else if colsIn rS e then (r.1, r.2.1, e :: r.2.2.1, r.2.2.2)
      else (r.1, r.2.1, r.2.2.1, e :: r.2.2.2)
    match e with
    | .func2 n (.col a) (.col b) =>
      if n == "eq" then
        if lS.contains a && rS.contains b then (e :: r.1, r.2.1, r.2.2.1, r.2.2.2)
        else if lS.contains b && rS.contains a then
          (.func2 "eq" (.col b) (.col a) :: r.1, r.2.1, r.2.2.1, r.2.2.2)
        else asOther
      else asOther
    | _ => asOther

/-- First argument of an equality condition, as a column; mirrors
eqCond.GetArgs()[0] with its column type assertion. -/
def eqArg0 : Expr → Column
  | .func2 _ (.col a) _ => a
  | _ => ⟨0⟩

/-- Second argument of an equality condition, as a column; mirrors
eqCond.GetArgs()[1] with its column type assertion. -/
def eqArg1 : Expr → Column
  | .func2 _ _ (.col b) => b
  | _ => ⟨0⟩

/-- A sort key, as plannercore.ByItems. -/
structure ByItem where
  expr : Expr
  desc : Bool
deriving DecidableEq, Repr

/-- Aggregation execution modes, as aggregation.AggFunctionMode. -/
inductive AggMode where
  | complete
  | part1
  | final
deriving DecidableEq, Repr, Inhabited

/-- An aggregate-function description, as aggregation.AggFuncDesc; outCol
models the identity of the output column the aggregate produces, which a
Clone preserves. -/
structure AggFuncDesc where
  name : String
  mode : AggMode
  args : List Expr
  retTp : Nat
  outCol : Column
deriving DecidableEq, Repr

/-- Join types, as plannercore.JoinType. -/
inductive JoinType where
  | inner
  | leftOuter
  | rightOuter
  | semi
  | antiSemi
  | leftOuterSemi
  | antiLeftOuterSemi
deriving DecidableEq, Repr, Inhabited

/-- The operator payload of a LogicalJoin: join type, the four condition
lists and the join keys. -/
structure JoinNode where
  tp : JoinType
  leftConds : List Expr
  rightConds : List Expr
  equalConds : List Expr
  otherConds : List Expr
  leftKeys : List Column
  rightKeys : List Column
deriving DecidableEq, Repr, Inhabited

/-- Execution tiers, as memo.EngineType. -/
inductive EngineType where
  | tidb
  | tikv
deriving DecidableEq, Repr

/-- Operator payloads, one case per operand kind used by the rule catalog. -/
inductive OpNode where
  | selection (conds : List Expr)
  | projection (exprs : List Expr) (schema : Schema)
  | tableScan (source : Nat) (handle : Option Column) (accessConds : List Expr) (schema : Schema)
  | indexScan (source : Nat) (isDoubleRead : Bool) (eqCondCount : Nat)
      (accessConds : List Expr) (ranges : List Expr) (index : Nat)
      (idxCols : List Column) (idxColLens : List Nat) (schema : Schema)
  | tikvSingleGather (source : Nat)
  | sort (byItems : List ByItem)
  | topN (offset : Nat) (cnt : Nat) (byItems : List ByItem)
  | limit (offset : Nat) (cnt : Nat)
  | aggregation (aggFuncs : List AggFuncDesc) (groupByItems : List Expr)
  | join (j : JoinNode)
  | dataSource (source : Nat)
  | tableDual (schema : Schema)
deriving DecidableEq, Repr

mutual
/-- Modelled from the spec: a memo Group, an equivalence class with one fixed
output schema, an engine tier and its member GroupExprs (the memo package is
not under src/). -/
inductive Group : Type where
  | mk (schema : Schema) (engine : EngineType) (equivalents : List GroupExpr)

/-- Modelled from the spec: a memo GroupExpr, one operator payload plus child
Group references (the memo package is not under src/). -/
inductive GroupExpr : Type where
  | mk (node : OpNode) (children : List Group)
end

/-- The schema of a Group. -/
def Group.schema : Group → Schema
  | .mk s _ _ => s

/-- The engine tier of a Group. -/
def Group.engine : Group → EngineType
  | .mk _ e _ => e

/-- The member GroupExprs of a Group. -/
def Group.equivalents : Group → List GroupExpr
  | .mk _ _ l => l

/-- The operator payload of a GroupExpr. -/
def GroupExpr.node : GroupExpr → OpNode
  | .mk n _ => n

/-- The child Groups of a GroupExpr. -/
def GroupExpr.children : GroupExpr → List Group
  | .mk _ c => c

/-- A placeholder Group, used only as the default of an out-of-range child
lookup. -/
def emptyGroup : Group := Group.mk [] EngineType.tidb []

/-- Child Group at a position, defaulting to the empty Group. -/
def childG (cs : List Group) (i : Nat) : Group := (cs[i]?).getD emptyGroup

/-- The output schema an operator instance produces, from its payload and
the schemas of its child Groups: row-filtering and row-ordering operators
pass their child schema through, a projection produces its expression
schema, scans produce the schema their source columns determine, an inner
join concatenates its children's schemas, and an aggregation produces the
output columns of its aggregate functions. -/
def GroupExpr.producedSchema : GroupExpr → Schema
  | .mk n cs =>
    match n with
    | .selection _ => (childG cs 0).schema
    | .projection _ s => s
    | .tableScan _ _ _ s => s
    | .indexScan _ _ _ _ _ _ _ _ s => s
    | .tikvSingleGather _ => (childG cs 0).schema
    | .sort _ => (childG cs 0).schema
    | .topN _ _ _ => (childG cs 0).schema
    | .limit _ _ => (childG cs 0).schema
    | .aggregation fs _ => fs.map (fun f => f.outCol)
    | .join _ => (childG cs 0).schema ++ (childG cs 1).schema
    | .dataSource _ => []
    | .tableDual s => s

/-- Modelled from the spec: memo.NewGroupWithSchema wraps a single GroupExpr
into a fresh Group with the given schema; the engine tier starts as the
coordinator tier unless a rule sets it (the memo package is not under
src/). -/
def newGroupWithSchema (e : GroupExpr) (s : Schema) : Group :=
  Group.mk s EngineType.tidb [e]

/-- The result of one rule application: the new GroupExprs, the two erase
flags and whether a data error propagated. -/
structure TransformResult where
  newExprs : List GroupExpr
  eraseOld : Bool
  eraseAll : Bool
  err : Bool

/-- The no-rewrite outcome: empty result, both flags false, no error. -/
def noRewrite : TransformResult := ⟨[], false, false, false⟩

/-- One binding of a two-level rule pattern against the memo, as an ExprIter
materializes it: the matched root payload, the schema of the root's owning
Group, the matched child's owning Group, the child payload, and the child
expression's own child Groups. -/
structure RuleBinding where
  rootNode : OpNode
  rootSchema : Schema
  childGroup : Group
  childNode : OpNode
  childChildren : List Group

/-- Grandchild Group at a position of a binding. -/
def RuleBinding.gchild (b : RuleBinding) (i : Nat) : Group := childG b.childChildren i

/-- Memo well-formedness of a binding: the root produces its Group's schema,
the child expression produces its Group's schema, and every member of the
child Group produces that Group's schema. -/
def RuleBinding.wf (b : RuleBinding) : Prop :=
  GroupExpr.producedSchema (.mk b.rootNode [b.childGroup]) = b.rootSchema ∧
  GroupExpr.producedSchema (.mk b.childNode b.childChildren) = b.childGroup.schema ∧
  ∀ e ∈ b.childGroup.equivalents, e.producedSchema = b.childGroup.schema

/-- baseRule.Match: a rule without its own Match accepts every binding. -/
def baseRuleMatch (_ : RuleBinding) : Bool := true

/-- PushSelDownTableScan.OnTransform, translated from
transformation_rules.go: absorb handle-column range conditions into the
table scan, keep the remainder as a Selection above it. -/
def pushSelDownTableScan (b : RuleBinding) : TransformResult :=
  match b.rootNode, b.childNode with
  | .selection conds, .tableScan src hd acc s =>
    match hd with
    | none => noRewrite
    | some h =>
      let dr := detachCondsForColumn conds h
      if dr.1.isEmpty then noRewrite
      else
        let tblScanExpr := GroupExpr.mk (.tableScan src (some h) (acc ++ dr.1) s) []
        if dr.2.isEmpty then ⟨[tblScanExpr], true, false, false⟩
        else
          let tblScanGroup := newGroupWithSchema tblScanExpr b.rootSchema
          ⟨[GroupExpr.mk (.selection dr.2) [tblScanGroup]], true, false, false⟩
  | _, _ => noRewrite

/-- PushSelDownIndexScan.OnTransform, translated from
transformation_rules.go: merge existing access conditions with the
selection's, recompute the access plan, and skip the rewrite when the new
access-condition set equals the existing one (the source checks equal
length and pairwise Equal, which for lists of equal length is list
equality). -/
def pushSelDownIndexScan (b : RuleBinding) : TransformResult :=
  match b.rootNode, b.childNode with
  | .selection selConds, .indexScan src dbl _eqc acc _rng idx idxCols lens s =>
    if idxCols.isEmpty then noRewrite
    else
      let conditions := selConds ++ acc
      let res := detachCondAndBuildRangeForIndex conditions idxCols lens
      if res.accessConds = acc then noRewrite
      else
        let newIs := GroupExpr.mk
          (.indexScan src dbl res.eqCondCount res.accessConds res.ranges idx idxCols lens s) []
        if res.remainedConds.isEmpty then ⟨[newIs], true, false, false⟩
        else
          let isGroup := newGroupWithSchema newIs b.childGroup.schema
          ⟨[GroupExpr.mk (.selection res.remainedConds) [isGroup]], true, false, false⟩
  | _, _ => noRewrite

/-- PushSelDownTiKVSingleGather.OnTransform, translated from
transformation_rules.go: split the predicates by storage-tier pushability,
push the pushable part below the gather, keep the rest above it. -/
def pushSelDownTiKVSingleGather (b : RuleBinding) : TransformResult :=
  match b.rootNode, b.childNode with
  | .selection conds, .tikvSingleGather src =>
    let childGroup := b.gchild 0
    let pr := expressionsToPB conds
    if pr.1.isEmpty then noRewrite
    else
      let pushedSelExpr := GroupExpr.mk (.selection pr.1) [childGroup]
      let pushedSelGroup := Group.mk childGroup.schema childGroup.engine [pushedSelExpr]
      let tblGatherExpr := GroupExpr.mk (.tikvSingleGather src) [pushedSelGroup]
      if pr.2.isEmpty then ⟨[tblGatherExpr], true, false, false⟩
      else
        let tblGatherGroup := newGroupWithSchema tblGatherExpr pushedSelGroup.schema
        ⟨[GroupExpr.mk (.selection pr.2) [tblGatherGroup]], true, false, false⟩
  | _, _ => noRewrite

/-- PushSelDownSort.OnTransform, translated from transformation_rules.go:
swap the Selection below the Sort unconditionally. -/
def pushSelDownSort (b : RuleBinding) : TransformResult :=
  match b.rootNode, b.childNode with
  | .selection conds, .sort byItems =>
    let childGroup := b.gchild 0
    let newSelExpr := GroupExpr.mk (.selection conds) [childGroup]
    let newSelGroup := newGroupWithSchema newSelExpr childGroup.schema
    ⟨[GroupExpr.mk (.sort byItems) [newSelGroup]], true, false, false⟩
  | _, _ => noRewrite

/-- PushSelDownProjection.OnTransform, translated from
transformation_rules.go: refuse when the projection assigns a variable;
substitute and push the conditions without a get/set-variable function,
keep the others above. -/
def pushSelDownProjection (b : RuleBinding) : TransformResult :=
  match b.rootNode, b.childNode with
  | .selection conds, .projection exprs projSchemaField =>
    let projSchema := b.childGroup.schema
    let childGroup := b.gchild 0
    if exprs.any hasAssignSetVarFunc then noRewrite
    else
      let canBePushed := (conds.filter (fun c => !(hasGetSetVarFunc c))).map
        (columnSubstitute projSchema exprs)
      let canNotBePushed := conds.filter hasGetSetVarFunc
      if canBePushed.isEmpty then noRewrite
      else
        let newBottomSelExpr := GroupExpr.mk (.selection canBePushed) [childGroup]
        let newBottomSelGroup := newGroupWithSchema newBottomSelExpr childGroup.schema
        let newProjExpr := GroupExpr.mk (.projection exprs projSchemaField) [newBottomSelGroup]
        if canNotBePushed.isEmpty then ⟨[newProjExpr], true, false, false⟩
        else
          let newProjGroup := newGroupWithSchema newProjExpr projSchema
          ⟨[GroupExpr.mk (.selection canNotBePushed) [newProjGroup]], true, false, false⟩
  | _, _ => noRewrite

/-- Modelled from the spec: LogicalAggregation.GetGroupByCols, the columns
among the group-by items (plannercore is not under src/). -/
def getGroupByCols (gby : List Expr) : List Column :=
  gby.filterMap (fun e => match e with | .col c => some c | _ => none)

/-- PushSelDownAggregation.OnTransform, translated from
transformation_rules.go: push below the aggregation the conditions whose
columns avoid every non-group-by output column, keep the others above. -/
def pushSelDownAggregation (b : RuleBinding) : TransformResult :=
  match b.rootNode, b.childNode with
  | .selection conds, .aggregation aggFuncs gby =>
    let aggrSchema := b.childGroup.schema
    let childGroup := b.gchild 0
    let gbyCols := getGroupByCols gby
    let aggrNoGroupBySchema := aggrSchema.filter (fun c => !(gbyCols.contains c))
    let canBePushed := conds.filter
      (fun e => !((extractColumns e).any (fun c => aggrNoGroupBySchema.contains c)))
    let canNotBePushed := conds.filter
      (fun e => (extractColumns e).any (fun c => aggrNoGroupBySchema.contains c))
    if canBePushed.isEmpty then noRewrite
    else
      let newBottomSelExpr := GroupExpr.mk (.selection canBePushed) [childGroup]
      let newBottomSelGroup := newGroupWithSchema newBottomSelExpr childGroup.schema
      let newAggrExpr := GroupExpr.mk (.aggregation aggFuncs gby) [newBottomSelGroup]
      if canNotBePushed.isEmpty then ⟨[newAggrExpr], true, false, false⟩
      else
        let newAggrGroup := newGroupWithSchema newAggrExpr aggrSchema
        ⟨[GroupExpr.mk (.selection canNotBePushed) [newAggrGroup]], true, false, false⟩
  | _, _ => noRewrite

/-- TransformLimitToTopN.OnTransform, translated from
transformation_rules.go: fuse Limit over Sort into a TopN over the sort's
child, always superseding the old expression. -/
def transformLimitToTopN (b : RuleBinding) : TransformResult :=
  match b.rootNode, b.childNode with
  | .limit off cnt, .sort byItems =>
    ⟨[GroupExpr.mk (.topN off cnt byItems) [b.gchild 0]], true, false, false⟩
  | _, _ => noRewrite

/-- Modelled from the spec: plannercore.Conds2TableDual returns an
empty-relation operator with the plan's schema when some condition is the
constant false or null (plannercore is not under src/). -/
def conds2TableDual (s : Schema) (conds : List Expr) : Option OpNode :=
  if conds.any isConstFalseOrNull then some (.tableDual s) else none

/-- buildChildSelectionGroup, translated from transformation_rules.go:
wrap a child Group in a new Selection when the pushed condition list is
not empty. -/
def buildChildSelectionGroup (conds : List Expr) (childGroup : Group) : Group :=
  if conds.isEmpty then childGroup
  else newGroupWithSchema (GroupExpr.mk (.selection conds) [childGroup]) childGroup.schema

/-- PushSelDownJoin.OnTransform, translated from transformation_rules.go.
The Go code mutates the matched join payload in place (it resets the
condition lists and appends the join keys), so the state of that payload
after the call is returned as the second component. For an inner join the
merged condition list is checked for a constant contradiction (table-dual
short circuit with eraseAll), otherwise re-partitioned; for every other
join type the switch falls through to its empty default, the selection's
conditions are not incorporated anywhere, and the join is still returned
with eraseOld set. -/
def pushSelDownJoin (b : RuleBinding) : TransformResult × JoinNode :=
  match b.rootNode, b.childNode with
  | .selection selConds, .join j =>
    if j.tp = JoinType.inner then
      let tempCond := j.leftConds ++ j.rightConds ++ j.equalConds ++ j.otherConds ++ selConds
      let tempCond2 := propagateConstant (extractFiltersFromDNFs tempCond)
      let joinSchema := (b.gchild 0).schema ++ (b.gchild 1).schema
      match conds2TableDual joinSchema tempCond2 with
      | some dual => (⟨[GroupExpr.mk dual []], false, true, false⟩, j)
      | none =>
        let ex := extractOnCondition tempCond2 (b.gchild 0).schema (b.gchild 1).schema
        let equalCond := ex.1
        let leftCond := removeDupExprs ex.2.1
        let rightCond := removeDupExprs ex.2.2.1
        let j2 : JoinNode :=
          { j with leftConds := [], rightConds := [],
                   equalConds := equalCond, otherConds := ex.2.2.2,
                   leftKeys := j.leftKeys ++ equalCond.map eqArg0,
                   rightKeys := j.rightKeys ++ equalCond.map eqArg1 }
        let lG := buildChildSelectionGroup leftCond (b.gchild 0)
        let rG := buildChildSelectionGroup rightCond (b.gchild 1)
        (⟨[GroupExpr.mk (.join j2) [lG, rG]], true, false, false⟩, j2)
    else
      let j2 : JoinNode :=
        { j with leftKeys := j.leftKeys ++ j.equalConds.map eqArg0,
                 rightKeys := j.rightKeys ++ j.equalConds.map eqArg1 }
      (⟨[GroupExpr.mk (.join j2) [b.gchild 0, b.gchild 1]], true, false, false⟩, j2)
  | _, _ => (noRewrite, default)

/-- EliminateProjection.OnTransform, translated from
transformation_rules.go: when the child Group's schema is column-for-column
the old Group's schema, promote every member of the child Group. -/
def eliminateProjection (b : RuleBinding) : TransformResult :=
  match b.rootNode with
  | .projection _ _ =>
    if b.childGroup.schema.length ≠ b.rootSchema.length then noRewrite
    else if b.childGroup.schema = b.rootSchema then
      ⟨b.childGroup.equivalents, true, false, false⟩
    else noRewrite
  | _ => noRewrite

/-- MergeAdjacentProjection.OnTransform, translated from
transformation_rules.go: refuse when the lower projection has side effects,
otherwise substitute the lower projection's expressions into the upper
one's (the ResolveExprAndReplace plus ReplaceColumnOfExpr pair of
plannercore, not under src/, is modelled from the spec as position-wise
column substitution) and set the merged projection's schema to the old
Group's schema. -/
def mergeAdjacentProjection (b : RuleBinding) : TransformResult :=
  match b.rootNode, b.childNode with
  | .projection projExprs _projSchemaField, .projection childExprs _childSchemaField =>
    if exprsHasSideEffects childExprs then noRewrite
    else
      let newExprs := projExprs.map (columnSubstitute b.childGroup.schema childExprs)
      ⟨[GroupExpr.mk (.projection newExprs b.rootSchema) [b.gchild 0]], true, false, false⟩
  | _, _ => noRewrite

/-- PushTopNDownProjection.Match, translated from transformation_rules.go:
reject when the child projection contains a variable assignment. -/
def pushTopNDownProjectionMatch (b : RuleBinding) : Bool :=
  match b.childNode with
  | .projection exprs _ => !(exprs.any hasAssignSetVarFunc)
  | _ => false

/-- Whether a sort key degenerated to a constant. -/
def isConstItem (bi : ByItem) : Bool :=
  match bi.expr with
  | .const _ => true
  | _ => false

/-- One position of the constant-sort-item loop, with the Go slice aliasing
made explicit: the loop writes append(newTopN.ByItems[:i],
newTopN.ByItems[i+1:]...) into topN.ByItems, which shifts the shared
backing array left from position i while the length-n view newTopN.ByItems
keeps its last element duplicated, and repoints the old operator's list at
the length n-1 view. -/
def rcStep (st : List ByItem × Bool) (i : Nat) : List ByItem × Bool :=
  match st.1[i]? with
  | some bi =>
    if isConstItem bi then
      (st.1.take i ++ st.1.drop (i + 1) ++ (st.1.getLast?.toList), true)
    else st
  | none => st

/-- The remove-meaningless-constant-sort-items loop of
PushTopNDownProjection.OnTransform, iterating i from the last position down
to 0: returns the final content of the new TopN's length-n item list and,
when at least one assignment happened, the final content of the old TopN's
item list (the length n-1 view of the same array). -/
def removeConstLoop (items : List ByItem) : List ByItem × Option (List ByItem) :=
  let n := items.length
  let st := ((List.range n).reverse).foldl rcStep (items, false)
  (st.1, if st.2 then some (st.1.take (n - 1)) else none)

/-- PushTopNDownProjection.OnTransform, translated from
transformation_rules.go. The constant-sort-item loop assigns to the OLD
TopN's ByItems field, so the state of that field after the call is
returned as the second component, and the new TopN keeps its unfiltered
item list. -/
def pushTopNDownProjection (b : RuleBinding) : TransformResult × List ByItem :=
  match b.rootNode, b.childNode with
  | .topN off cnt byItems, .projection projExprs projSchemaField =>
    let childGroup := b.gchild 0
    let subItems := byItems.map
      (fun bi => ByItem.mk (columnSubstitute b.childGroup.schema projExprs bi.expr) bi.desc)
    let rc := removeConstLoop subItems
    let oldItemsAfter := rc.2.getD byItems
    let topNExpr := GroupExpr.mk (.topN off cnt rc.1) [childGroup]
    let topNGroup := newGroupWithSchema topNExpr childGroup.schema
    (⟨[GroupExpr.mk (.projection projExprs projSchemaField) [topNGroup]], true, false, false⟩,
     oldItemsAfter)
  | .topN _ _ byItems, _ => (noRewrite, byItems)
  | _, _ => (noRewrite, [])

/-- MergeAggregationProjection.Match, translated from
transformation_rules.go: reject when the child projection has side
effects. -/
def mergeAggregationProjectionMatch (b : RuleBinding) : Bool :=
  match b.childNode with
  | .projection exprs _ => !(exprsHasSideEffects exprs)
  | _ => false

/-- MergeAggregationProjection.OnTransform, translated from
transformation_rules.go: substitute aggregate arguments and group-by items
through the child projection (the substitution pair of plannercore, not
under src/, is modelled from the spec) and reparent the aggregation onto
the projection's child. -/
def mergeAggregationProjection (b : RuleBinding) : TransformResult :=
  match b.rootNode, b.childNode with
  | .aggregation aggFuncs gby, .projection childExprs _ =>
    let sub := columnSubstitute b.childGroup.schema childExprs
    let newFuncs := aggFuncs.map (fun f => { f with args := f.args.map sub })
    let newGby := gby.map sub
    ⟨[GroupExpr.mk (.aggregation newFuncs newGby) [b.gchild 0]], true, false, false⟩
  | _, _ => noRewrite

/-- Modelled from the spec: plannercore.CheckAggCanPushCop, the storage-tier
pushability check for a complete-mode aggregate/group-by combination
(plannercore is not under src/). -/
def checkAggCanPushCop (fs : List AggFuncDesc) (gby : List Expr) : Bool :=
  fs.all (fun f => f.args.all pushableToStorage) && gby.all pushableToStorage

/-- PushAggDownGather.Match, translated from transformation_rules.go: every
aggregate function must be in complete mode and the storage-tier
pushability check must pass. -/
def pushAggDownGatherMatch (b : RuleBinding) : Bool :=
  match b.rootNode with
  | .aggregation fs gby =>
    fs.all (fun f => f.mode == AggMode.complete) && checkAggCanPushCop fs gby
  | _ => false

/-- Modelled from the spec: plannercore.BuildFinalModeAggregation builds the
final-stage aggregate list, final group-by list and the partial stage's
output schema from the partial stage (plannercore is not under src/). -/
def buildFinalModeAggregation (pFuncs : List AggFuncDesc) (gby : List Expr) :
    List AggFuncDesc × List Expr × Schema :=
  (pFuncs.map (fun f => { f with mode := AggMode.final, args := [Expr.col f.outCol] }),
   gby,
   pFuncs.map (fun f => f.outCol))

/-- Modelled from the spec: plannercore.RemoveUnnecessaryFirstRow drops
redundant first-value helper aggregates whose argument is already a
group-by item (plannercore is not under src/). -/
def removeUnnecessaryFirstRow (pFuncs : List AggFuncDesc) (gby : List Expr) :
    List AggFuncDesc :=
  pFuncs.filter (fun f => !(f.name == "firstrow" && f.args.any (fun a => gby.contains a)))

/-- PushAggDownGather.OnTransform, translated from transformation_rules.go:
build a partial aggregation below the gather and a final aggregation above
it, keeping the original single-stage aggregation (both erase flags
false). -/
def pushAggDownGather (b : RuleBinding) : TransformResult :=
  match b.rootNode, b.childNode with
  | .aggregation aggFuncs gby, .tikvSingleGather src =>
    let childGroup := b.gchild 0
    let pFuncs := aggFuncs.map (fun f => { f with mode := AggMode.part1 })
    let fin := buildFinalModeAggregation pFuncs gby
    let pFuncs2 := removeUnnecessaryFirstRow pFuncs gby
    let pAggExpr := GroupExpr.mk (.aggregation pFuncs2 gby) [childGroup]
    let pAggGroup := Group.mk fin.2.2 childGroup.engine [pAggExpr]
    let gatherExpr := GroupExpr.mk (.tikvSingleGather src) [pAggGroup]
    let gatherGroup := newGroupWithSchema gatherExpr fin.2.2
    ⟨[GroupExpr.mk (.aggregation fin.1 fin.2.1) [gatherGroup]], false, false, false⟩
  | _, _ => noRewrite

/- Concrete inputs used by the witnesses, counterexamples and failing-input
evaluations below. -/

/-- A column used by the concrete examples. -/
def colA : Column := ⟨1⟩

/-- A column used by the concrete examples. -/
def colB : Column := ⟨2⟩

/-- A leaf Group producing column colA. -/
def grpA : Group := Group.mk [colA] EngineType.tidb []

/-- A leaf Group producing column colB. -/
def grpB : Group := Group.mk [colB] EngineType.tidb []

/-- A selection predicate on colA. -/
def predA : Expr := .func2 "eq" (.col colA) (.const (.vInt 7))

/-- A left outer join with no conditions. -/
def outerJoinNode : JoinNode := ⟨.leftOuter, [], [], [], [], [], []⟩

/-- A Selection with one predicate over a left outer join. -/
def bindC1 : RuleBinding :=
  ⟨.selection [predA], [colA, colB], Group.mk [colA, colB] EngineType.tidb [],
   .join outerJoinNode, [grpA, grpB]⟩

/-- An inner join with no conditions. -/
def jC2 : JoinNode := ⟨.inner, [], [], [], [], [], []⟩

/-- The constant contradiction 1 = 0 of the spec's example. -/
def contraCond : Expr := .func2 "eq" (.const (.vInt 1)) (.const (.vInt 0))

/-- Left child Group of the contradiction example. -/
def grpC2L : Group := Group.mk [colA] EngineType.tidb []

/-- Right child Group of the contradiction example. -/
def grpC2R : Group := Group.mk [colB] EngineType.tidb []

/-- A Selection carrying 1 = 0 over an inner join. -/
def bindC2 : RuleBinding :=
  ⟨.selection [contraCond], [colA, colB], Group.mk [colA, colB] EngineType.tidb [],
   .join jC2, [grpC2L, grpC2R]⟩

/-- The handle column of the table-scan example. -/
def scanCol : Column := ⟨21⟩

/-- A Selection with a handle-column predicate over a table scan. -/
def bindC3 : RuleBinding :=
  ⟨.selection [.func2 "eq" (.col scanCol) (.const (.vInt 4))], [scanCol],
   Group.mk [scanCol] EngineType.tidb [],
   .tableScan 1 (some scanCol) [] [scanCol], []⟩

/-- First (and only) column of the example index. -/
def idxC1 : Column := ⟨11⟩

/-- A non-index column of the example table. -/
def idxC2 : Column := ⟨12⟩

/-- An equality on the first index column, usable as an access condition. -/
def c4eq : Expr := .func2 "eq" (.col idxC1) (.const (.vInt 5))

/-- A predicate on a non-index column, which must remain. -/
def c4lt : Expr := .func2 "lt" (.col idxC2) (.const (.vInt 3))

/-- A Selection with one access and one residual predicate over an index
scan with no access conditions yet. -/
def bindC4 : RuleBinding :=
  ⟨.selection [c4eq, c4lt], [idxC1, idxC2], Group.mk [idxC1, idxC2] EngineType.tidb [],
   .indexScan 0 false 0 [] [] 0 [idxC1] [10] [idxC1, idxC2], []⟩

/-- A Projection whose upper expression list assigns a variable, over a
clean lower Projection. -/
def bindC5cex : RuleBinding :=
  ⟨.projection [.assignVar "v" (.const (.vInt 1))] [colA], [colA],
   Group.mk [colA] EngineType.tidb [], .projection [.col colB] [colA], [grpB]⟩

/-- A clean upper Projection over a lower Projection that assigns a
variable. -/
def bindC5w : RuleBinding :=
  ⟨.projection [.col colA] [colA], [colA], Group.mk [colA] EngineType.tidb [],
   .projection [.assignVar "w" (.const (.vInt 2))] [colA], [grpB]⟩

/-- The sort column of the TopN example. -/
def colX : Column := ⟨7⟩

/-- The Group below the projection of the TopN example. -/
def grpX : Group := Group.mk [⟨3⟩] EngineType.tidb []

/-- A TopN sorting by colX over a Projection that maps colX to the
constant 1, so the substituted sort key degenerates to a constant. -/
def bindC6 : RuleBinding :=
  ⟨.topN 0 5 [⟨.col colX, false⟩], [colX], Group.mk [colX] EngineType.tidb [],
   .projection [.const (.vInt 1)] [colX], [grpX]⟩

/-- Output column of the example aggregate function. -/
def outC : Column := ⟨41⟩

/-- A complete-mode sum aggregate with a pushable argument. -/
def aggF : AggFuncDesc := ⟨"sum", .complete, [.col colA], 0, outC⟩

/-- A complete-mode Aggregation over a TiKVSingleGather. -/
def bindC7 : RuleBinding :=
  ⟨.aggregation [aggF] [.col colA], [outC], Group.mk [outC] EngineType.tidb [],
   .tikvSingleGather 1, [grpA]⟩

/-- The sort column of the Limit-Sort example. -/
def colSort : Column := ⟨31⟩

/-- The scan Group below the sort of the Limit-Sort example. -/
def scanGrp : Group := Group.mk [colSort] EngineType.tidb []

/-- Limit(offset 5, count 10) over Sort(by colSort asc) over a scan, the
spec's worked example. -/
def bindC8 : RuleBinding :=
  ⟨.limit 5 10, [colSort], Group.mk [colSort] EngineType.tidb [],
   .sort [ByItem.mk (.col colSort) false], [scanGrp]⟩

/-- A left-side-only predicate of the mutation example. -/
def predLeft : Expr := .func2 "eq" (.col colA) (.const (.vInt 1))

/-- An inner join whose payload carries one left condition. -/
def innerJoinC9 : JoinNode := ⟨.inner, [predLeft], [], [], [], [], []⟩

/-- An empty Selection over the inner join with a left condition. -/
def bindC9 : RuleBinding :=
  ⟨.selection [], [colA, colB], Group.mk [colA, colB] EngineType.tidb [],
   .join innerJoinC9, [grpA, grpB]⟩

/-- A selection predicate of the non-inner-join example. -/
def predC10 : Expr := .func2 "eq" (.col colA) (.const (.vInt 9))

/-- A left outer join with no conditions, for the non-inner-join example. -/
def jC10 : JoinNode := ⟨.leftOuter, [], [], [], [], [], []⟩

/-- Left child Group of the non-inner-join example. -/
def grpC10L : Group := Group.mk [colA] EngineType.tidb []

/-- Right child Group of the non-inner-join example. -/
def grpC10R : Group := Group.mk [colB] EngineType.tidb []

/-- A Selection with one predicate over a left outer join. -/
def bindC10 : RuleBinding :=
  ⟨.selection [predC10], [colA, colB], Group.mk [colA, colB] EngineType.tidb [],
   .join jC10, [grpC10L, grpC10R]⟩

/- Theorems. -/

/-- Schema of a literal Group. -/
@[simp]
theorem Group.schema_mk (s : Schema) (en : EngineType) (l : List GroupExpr) :
    (Group.mk s en l).schema = s := rfl

/-- Members of a literal Group. -/
@[simp]
theorem Group.equivalents_mk (s : Schema) (en : EngineType) (l : List GroupExpr) :
    (Group.mk s en l).equivalents = l := rfl

/-- The Group buildChildSelectionGroup returns keeps the child Group's
schema. -/
theorem buildChildSelectionGroup_schema (conds : List Expr) (g : Group) :
    (buildChildSelectionGroup conds g).schema = g.schema := by
  by_cases h : conds = [] <;> simp [buildChildSelectionGroup, h, newGroupWithSchema]

/-- Filtering by a predicate after filtering by its negation yields the
empty list. -/
theorem filter_not_filter {α : Type} (p : α → Bool) (l : List α) :
    (l.filter (fun a => !(p a))).filter p = [] := by
  induction l with
  | nil => simp
  | cons a t ih => cases h : p a <;> simp [List.filter_cons, h, ih]

/-- Filtering twice by the same predicate equals filtering once. -/
theorem filter_filter_self {α : Type} (p : α → Bool) (l : List α) :
    (l.filter p).filter p = l.filter p := by
  induction l with
  | nil => simp
  | cons a t ih => cases h : p a <;> simp [List.filter_cons, h, ih]

/-- The table-dual check fires exactly when some condition is constant
false or null. -/
theorem conds2TableDual_eq_some (s : Schema) (conds : List Expr)
    (h : conds.any isConstFalseOrNull = true) :
    conds2TableDual s conds = some (.tableDual s) := by
  simp [conds2TableDual, h]

/-- Schema preservation of PushSelDownTableScan. -/
theorem sp_tableScan (b : RuleBinding) (hwf : b.wf) :
    ∀ e ∈ (pushSelDownTableScan b).newExprs, e.producedSchema = b.rootSchema := by
  obtain ⟨h1, h2, -⟩ := hwf
  rcases b with ⟨rn, rs, cg, cn, cc⟩
  cases rn <;> try (intro e he; simp [pushSelDownTableScan, noRewrite] at he; done)
  case selection conds =>
    cases cn <;> try (intro e he; simp [pushSelDownTableScan, noRewrite] at he; done)
    case tableScan src hd acc s =>
      simp [GroupExpr.producedSchema, childG] at h1 h2
      intro e he
      cases hd with
      | none => simp [pushSelDownTableScan, noRewrite] at he
      | some h =>
        by_cases hacc : (detachCondsForColumn conds h).1 = []
        · simp [pushSelDownTableScan, hacc, noRewrite] at he
        · by_cases hrem : (detachCondsForColumn conds h).2 = []
          · simp [pushSelDownTableScan, hacc, hrem] at he
            subst he
            simp [GroupExpr.producedSchema, h1, h2]
          · simp [pushSelDownTableScan, hacc, hrem] at he
            subst he
            simp [GroupExpr.producedSchema, childG, newGroupWithSchema]

/-- Schema preservation of PushSelDownIndexScan. -/
theorem sp_indexScan (b : RuleBinding) (hwf : b.wf) :
    ∀ e ∈ (pushSelDownIndexScan b).newExprs, e.producedSchema = b.rootSchema := by
  obtain ⟨h1, h2, -⟩ := hwf
  rcases b with ⟨rn, rs, cg, cn, cc⟩
  cases rn <;> try (intro e he; simp [pushSelDownIndexScan, noRewrite] at he; done)
  case selection conds =>
    cases cn <;> try (intro e he; simp [pushSelDownIndexScan, noRewrite] at he; done)
    case indexScan src dbl eqc acc rng idx idxCols lens s =>
      simp [GroupExpr.producedSchema, childG] at h1 h2
      intro e he
      by_cases hempty : idxCols = []
      · simp [pushSelDownIndexScan, hempty, noRewrite] at he
      · by_cases hsame :
          (detachCondAndBuildRangeForIndex (conds ++ acc) idxCols lens).accessConds = acc
        · simp [pushSelDownIndexScan, hempty, hsame, noRewrite] at he
        · by_cases hrem :
            (detachCondAndBuildRangeForIndex (conds ++ acc) idxCols lens).remainedConds = []
          · simp [pushSelDownIndexScan, hempty, hsame, hrem] at he
            subst he
            simp [GroupExpr.producedSchema, h1, h2]
          · simp [pushSelDownIndexScan, hempty, hsame, hrem] at he
            subst he
            simp [GroupExpr.producedSchema, childG, newGroupWithSchema, h1]

/-- Schema preservation of PushSelDownTiKVSingleGather. -/
theorem sp_gather (b : RuleBinding) (hwf : b.wf) :
    ∀ e ∈ (pushSelDownTiKVSingleGather b).newExprs, e.producedSchema = b.rootSchema := by
  obtain ⟨h1, h2, -⟩ := hwf
  rcases b with ⟨rn, rs, cg, cn, cc⟩
  cases rn <;> try (intro e he; simp [pushSelDownTiKVSingleGather, noRewrite] at he; done)
  case selection conds =>
    cases cn <;> try (intro e he; simp [pushSelDownTiKVSingleGather, noRewrite] at he; done)
    case tikvSingleGather src =>
      simp [GroupExpr.producedSchema, childG] at h1 h2
      intro e he
      by_cases hp : (expressionsToPB conds).1 = []
      · simp [pushSelDownTiKVSingleGather, hp, noRewrite] at he
      · by_cases hr : (expressionsToPB conds).2 = []
        · simp [pushSelDownTiKVSingleGather, hp, hr] at he
          subst he
          simp [GroupExpr.producedSchema, RuleBinding.gchild, childG, h1, h2]
        · simp [pushSelDownTiKVSingleGather, hp, hr] at he
          subst he
          simp [GroupExpr.producedSchema, RuleBinding.gchild, childG, newGroupWithSchema, h1, h2]

/-- Schema preservation of PushSelDownSort. -/
theorem sp_sort (b : RuleBinding) (hwf : b.wf) :
    ∀ e ∈ (pushSelDownSort b).newExprs, e.producedSchema = b.rootSchema := by
  obtain ⟨h1, h2, -⟩ := hwf
  rcases b with ⟨rn, rs, cg, cn, cc⟩
  cases rn <;> try (intro e he; simp [pushSelDownSort, noRewrite] at he; done)
  case selection conds =>
    cases cn <;> try (intro e he; simp [pushSelDownSort, noRewrite] at he; done)
    case sort byItems =>
      simp [GroupExpr.producedSchema, childG] at h1 h2
      intro e he
      simp [pushSelDownSort] at he
      subst he
      simp [GroupExpr.producedSchema, RuleBinding.gchild, childG, newGroupWithSchema, h1, h2]

/-- Schema preservation of PushSelDownProjection. -/
theorem sp_projection (b : RuleBinding) (hwf : b.wf) :
    ∀ e ∈ (pushSelDownProjection b).newExprs, e.producedSchema = b.rootSchema := by
  obtain ⟨h1, h2, -⟩ := hwf
  rcases b with ⟨rn, rs, cg, cn, cc⟩
  cases rn <;> try (intro e he; simp [pushSelDownProjection, noRewrite] at he; done)
  case selection conds =>
    cases cn <;> try (intro e he; simp [pushSelDownProjection, noRewrite] at he; done)
    case projection exprs projSchemaField =>
      simp [GroupExpr.producedSchema, childG] at h1 h2
      intro e he
      by_cases hav : exprs.any hasAssignSetVarFunc
      · simp [pushSelDownProjection, hav, noRewrite] at he
      · by_cases hcp :
          (conds.filter (fun c => !(hasGetSetVarFunc c))).map (columnSubstitute cg.schema exprs) = []
        · simp [pushSelDownProjection, hav, hcp, noRewrite] at he
        · by_cases hcn : conds.filter hasGetSetVarFunc = []
          · simp [pushSelDownProjection, hav, hcp, hcn] at he
            subst he
            simp [GroupExpr.producedSchema, h1, h2]
          · simp [pushSelDownProjection, hav, hcp, hcn] at he
            subst he
            simp [GroupExpr.producedSchema, childG, newGroupWithSchema, h1]

/-- Schema preservation of PushSelDownAggregation. -/
theorem sp_aggregation (b : RuleBinding) (hwf : b.wf) :
    ∀ e ∈ (pushSelDownAggregation b).newExprs, e.producedSchema = b.rootSchema := by
  obtain ⟨h1, h2, -⟩ := hwf
  rcases b with ⟨rn, rs, cg, cn, cc⟩
  cases rn <;> try (intro e he; simp [pushSelDownAggregation, noRewrite] at he; done)
  case selection conds =>
    cases cn <;> try (intro e he; simp [pushSelDownAggregation, noRewrite] at he; done)
    case aggregation aggFuncs gby =>
      simp [GroupExpr.producedSchema, childG] at h1 h2
      intro e he
      simp [pushSelDownAggregation, noRewrite] at he
      split_ifs at he <;> simp at he <;> try subst he
      all_goals
        simp [GroupExpr.producedSchema, childG, newGroupWithSchema, h1, h2]

/-- Schema preservation of PushSelDownJoin, the table-dual branch
included. -/
theorem sp_join (b : RuleBinding) (hwf : b.wf) :
    ∀ e ∈ (pushSelDownJoin b).1.newExprs, e.producedSchema = b.rootSchema := by
  obtain ⟨h1, h2, -⟩ := hwf
  rcases b with ⟨rn, rs, cg, cn, cc⟩
  cases rn <;> try (intro e he; simp [pushSelDownJoin, noRewrite] at he; done)
  case selection conds =>
    cases cn <;> try (intro e he; simp [pushSelDownJoin, noRewrite] at he; done)
    case join j =>
      simp [GroupExpr.producedSchema, childG] at h1 h2
      intro e he
      simp [pushSelDownJoin] at he
      split at he
      · split at he
        case _ dual heq =>
          simp at he
          subst he
          simp only [conds2TableDual] at heq
          split_ifs at heq
          simp at heq
          subst heq
          simp [GroupExpr.producedSchema, RuleBinding.gchild, childG, h1, h2]
        case _ heq =>
          simp at he
          subst he
          simp [GroupExpr.producedSchema, RuleBinding.gchild, childG,
            buildChildSelectionGroup_schema, h1, h2]
      · simp at he
        subst he
        simp [GroupExpr.producedSchema, RuleBinding.gchild, childG, h1, h2]

/-- Schema preservation of TransformLimitToTopN. -/
theorem sp_limit (b : RuleBinding) (hwf : b.wf) :
    ∀ e ∈ (transformLimitToTopN b).newExprs, e.producedSchema = b.rootSchema := by
  obtain ⟨h1, h2, -⟩ := hwf
  rcases b with ⟨rn, rs, cg, cn, cc⟩
  cases rn <;> try (intro e he; simp [transformLimitToTopN, noRewrite] at he; done)
  case limit off cnt =>
    cases cn <;> try (intro e he; simp [transformLimitToTopN, noRewrite] at he; done)
    case sort byItems =>
      simp [GroupExpr.producedSchema, childG] at h1 h2
      intro e he
      simp [transformLimitToTopN] at he
      subst he
      simp [GroupExpr.producedSchema, RuleBinding.gchild, childG, h1, h2]

/-- Schema preservation of EliminateProjection: the promoted members all
produce the child Group's schema, which the rule checked equal to the old
Group's schema. -/
theorem sp_elimProj (b : RuleBinding) (hwf : b.wf) :
    ∀ e ∈ (eliminateProjection b).newExprs, e.producedSchema = b.rootSchema := by
  obtain ⟨h1, h2, h3⟩ := hwf
  rcases b with ⟨rn, rs, cg, cn, cc⟩
  cases rn <;> try (intro e he; simp [eliminateProjection, noRewrite] at he; done)
  case projection exprs s =>
    intro e he
    simp only [eliminateProjection] at he
    split_ifs at he with hlen heq
    · simp [noRewrite] at he
    · simp at he
      rw [← heq]
      exact h3 e he
    · simp [noRewrite] at he

/-- Schema preservation of MergeAdjacentProjection: the merged projection's
schema is set to the old Group's schema. -/
theorem sp_mergeProj (b : RuleBinding) (hwf : b.wf) :
    ∀ e ∈ (mergeAdjacentProjection b).newExprs, e.producedSchema = b.rootSchema := by
  obtain ⟨h1, h2, -⟩ := hwf
  rcases b with ⟨rn, rs, cg, cn, cc⟩
  cases rn <;> try (intro e he; simp [mergeAdjacentProjection, noRewrite] at he; done)
  case projection exprs s =>
    cases cn <;> try (intro e he; simp [mergeAdjacentProjection, noRewrite] at he; done)
    case projection childExprs cs =>
      intro e he
      simp only [mergeAdjacentProjection] at he
      split_ifs at he <;> simp [noRewrite] at he
      subst he
      simp [GroupExpr.producedSchema]

/-- Schema preservation of PushTopNDownProjection. -/
theorem sp_topnProj (b : RuleBinding) (hwf : b.wf) :
    ∀ e ∈ (pushTopNDownProjection b).1.newExprs, e.producedSchema = b.rootSchema := by
  obtain ⟨h1, h2, -⟩ := hwf
  rcases b with ⟨rn, rs, cg, cn, cc⟩
  cases rn <;> try (intro e he; simp [pushTopNDownProjection, noRewrite] at he; done)
  case topN off cnt byItems =>
    cases cn <;> try (intro e he; simp [pushTopNDownProjection, noRewrite] at he; done)
    case projection projExprs projSchemaField =>
      simp [GroupExpr.producedSchema, childG] at h1 h2
      intro e he
      simp [pushTopNDownProjection] at he
      subst he
      simp [GroupExpr.producedSchema, h1, h2]

/-- Schema preservation of MergeAggregationProjection: argument
substitution keeps the aggregate output columns. -/
theorem sp_mergeAggProj (b : RuleBinding) (hwf : b.wf) :
    ∀ e ∈ (mergeAggregationProjection b).newExprs, e.producedSchema = b.rootSchema := by
  obtain ⟨h1, h2, -⟩ := hwf
  rcases b with ⟨rn, rs, cg, cn, cc⟩
  cases rn <;> try (intro e he; simp [mergeAggregationProjection, noRewrite] at he; done)
  case aggregation aggFuncs gby =>
    cases cn <;> try (intro e he; simp [mergeAggregationProjection, noRewrite] at he; done)
    case projection childExprs cs =>
      simp [GroupExpr.producedSchema, childG] at h1 h2
      intro e he
      simp [mergeAggregationProjection] at he
      subst he
      simp [GroupExpr.producedSchema, List.map_map]
      rw [← h1]
      rfl

/-- C1: the claim that every Selection-pushdown rule conserves the
predicate list (every predicate not absorbed appears, verbatim or
substituted, in exactly one returned GroupExpr) fails on PushSelDownJoin:
for a non-inner join the switch falls through to its empty default, and
the rule still returns a rewrite with eraseOld set in which the matched
Selection's predicate appears nowhere.  This theorem evaluates the rule at
that failing input: the Selection over a left outer join with predicate
predA rewrites to the unchanged join with eraseOld true, and predA is in
none of the returned join's condition lists. -/
theorem c1_outer_join_drops_selection_predicates :
    baseRuleMatch bindC1 = true ∧
    (pushSelDownJoin bindC1).1.newExprs = [GroupExpr.mk (.join outerJoinNode) [grpA, grpB]] ∧
    (pushSelDownJoin bindC1).1.eraseOld = true ∧
    (pushSelDownJoin bindC1).1.err = false ∧
    predA ∈ [predA] ∧
    predA ∉ outerJoinNode.leftConds ++ outerJoinNode.rightConds ++
      outerJoinNode.equalConds ++ outerJoinNode.otherConds :=
  ⟨rfl, rfl, rfl, rfl, by simp, by simp [outerJoinNode]⟩

/-- C2: for a Selection over an inner join whose merged condition list,
after filter extraction and constant propagation, contains a constant
false or null condition, PushSelDownJoin returns exactly one new
GroupExpr, a table-dual operator with the join's schema, with eraseAll
true, eraseOld false and no error, and the join payload is not touched. -/
theorem c2_inner_join_contradiction_table_dual (b : RuleBinding)
    (selConds : List Expr) (j : JoinNode)
    (h1 : b.rootNode = .selection selConds) (h2 : b.childNode = .join j)
    (h3 : j.tp = JoinType.inner)
    (h4 : (propagateConstant (extractFiltersFromDNFs
        (j.leftConds ++ j.rightConds ++ j.equalConds ++ j.otherConds ++ selConds))).any
          isConstFalseOrNull = true) :
    (pushSelDownJoin b).1.newExprs =
      [GroupExpr.mk (.tableDual ((b.gchild 0).schema ++ (b.gchild 1).schema)) []] ∧
    (pushSelDownJoin b).1.eraseOld = false ∧
    (pushSelDownJoin b).1.eraseAll = true ∧
    (pushSelDownJoin b).1.err = false ∧
    (pushSelDownJoin b).2 = j := by
  rcases b with ⟨rn, rs, cg, cn, cc⟩
  dsimp only at h1 h2
  subst h1
  subst h2
  have key : pushSelDownJoin ⟨.selection selConds, rs, cg, .join j, cc⟩ =
      (⟨[GroupExpr.mk (.tableDual ((childG cc 0).schema ++ (childG cc 1).schema)) []],
        false, true, false⟩, j) := by
    simp [pushSelDownJoin, h3, RuleBinding.gchild]
    rw [conds2TableDual_eq_some]
    simpa using h4
  rw [key]
  simp [RuleBinding.gchild]

/-- C2 witness: on the Selection carrying the spec's example condition
1 = 0 over an inner join, the rule returns a single table-dual GroupExpr
with eraseAll true and eraseOld false. -/
theorem c2_inner_join_contradiction_table_dual_witness :
    (pushSelDownJoin bindC2).1.newExprs = [GroupExpr.mk (.tableDual [colA, colB]) []] ∧
    (pushSelDownJoin bindC2).1.eraseOld = false ∧
    (pushSelDownJoin bindC2).1.eraseAll = true := by
  have h := c2_inner_join_contradiction_table_dual bindC2 [contraCond] jC2 rfl rfl rfl (by decide)
  exact ⟨h.1, h.2.1, h.2.2.1⟩

/-- C3: every rule of the catalog other than EnumeratePaths and
PushAggDownGather produces, on a memo-well-formed binding, only
replacement GroupExprs whose produced schema is exactly the matched
GroupExpr's Group schema, one conjunct per rule in catalog order. -/
theorem c3_schema_preservation :
    (∀ b : RuleBinding, b.wf →
      ∀ e ∈ (pushSelDownTableScan b).newExprs, e.producedSchema = b.rootSchema) ∧
    (∀ b : RuleBinding, b.wf →
      ∀ e ∈ (pushSelDownIndexScan b).newExprs, e.producedSchema = b.rootSchema) ∧
    (∀ b : RuleBinding, b.wf →
      ∀ e ∈ (pushSelDownTiKVSingleGather b).newExprs, e.producedSchema = b.rootSchema) ∧
    (∀ b : RuleBinding, b.wf →
      ∀ e ∈ (pushSelDownSort b).newExprs, e.producedSchema = b.rootSchema) ∧
    (∀ b : RuleBinding, b.wf →
      ∀ e ∈ (pushSelDownProjection b).newExprs, e.producedSchema = b.rootSchema) ∧
    (∀ b : RuleBinding, b.wf →
      ∀ e ∈ (pushSelDownAggregation b).newExprs, e.producedSchema = b.rootSchema) ∧
    (∀ b : RuleBinding, b.wf →
      ∀ e ∈ (pushSelDownJoin b).1.newExprs, e.producedSchema = b.rootSchema) ∧
    (∀ b : RuleBinding, b.wf →
      ∀ e ∈ (transformLimitToTopN b).newExprs, e.producedSchema = b.rootSchema) ∧
    (∀ b : RuleBinding, b.wf →
      ∀ e ∈ (eliminateProjection b).newExprs, e.producedSchema = b.rootSchema) ∧
    (∀ b : RuleBinding, b.wf →
      ∀ e ∈ (mergeAdjacentProjection b).newExprs, e.producedSchema = b.rootSchema) ∧
    (∀ b : RuleBinding, b.wf →
      ∀ e ∈ (pushTopNDownProjection b).1.newExprs, e.producedSchema = b.rootSchema) ∧
    (∀ b : RuleBinding, b.wf →
      ∀ e ∈ (mergeAggregationProjection b).newExprs, e.producedSchema = b.rootSchema) :=
  ⟨sp_tableScan, sp_indexScan, sp_gather, sp_sort, sp_projection, sp_aggregation,
   sp_join, sp_limit, sp_elimProj, sp_mergeProj, sp_topnProj, sp_mergeAggProj⟩

/-- C3 witness: a concrete well-formed Selection-over-TableScan binding on
which the first conjunct applies. -/
theorem c3_schema_preservation_witness :
    bindC3.wf ∧
    (∀ e ∈ (pushSelDownTableScan bindC3).newExprs, e.producedSchema = bindC3.rootSchema) := by
  have hwf : bindC3.wf := by
    refine ⟨rfl, rfl, ?_⟩
    intro e he
    simp [bindC3] at he
  exact ⟨hwf, c3_schema_preservation.1 bindC3 hwf⟩

/-- C4: PushSelDownIndexScan reaches a fixpoint after one application.
First conjunct: when the rule rewrites a Selection over an IndexScan into
a new Selection over a new IndexScan, the new scan carries the recomputed
access conditions and the new Selection the remainder.  Second conjunct:
applying the rule to that resulting Selection over IndexScan, with no new
predicates introduced, yields no rewrite (empty result, both flags false,
no error), because the recomputed access-condition set equals the one
already attached to the scan. -/
theorem c4_index_scan_pushdown_fixpoint (b : RuleBinding)
    (selConds acc rng : List Expr) (src2 : Nat) (dbl : Bool)
    (eqc idx : Nat) (idxCols : List Column) (lens : List Nat) (s : Schema)
    (h1 : b.rootNode = .selection selConds)
    (h2 : b.childNode = .indexScan src2 dbl eqc acc rng idx idxCols lens s) :
    (idxCols ≠ [] →
     (detachCondAndBuildRangeForIndex (selConds ++ acc) idxCols lens).accessConds ≠ acc →
     (detachCondAndBuildRangeForIndex (selConds ++ acc) idxCols lens).remainedConds ≠ [] →
      (pushSelDownIndexScan b).newExprs =
        [GroupExpr.mk
          (.selection (detachCondAndBuildRangeForIndex (selConds ++ acc) idxCols lens).remainedConds)
          [newGroupWithSchema
            (GroupExpr.mk (.indexScan src2 dbl
              (detachCondAndBuildRangeForIndex (selConds ++ acc) idxCols lens).eqCondCount
              (detachCondAndBuildRangeForIndex (selConds ++ acc) idxCols lens).accessConds
              (detachCondAndBuildRangeForIndex (selConds ++ acc) idxCols lens).ranges
              idx idxCols lens s) [])
            b.childGroup.schema]]) ∧
    (∀ (rs2 : Schema) (cg2 : Group) (cc2 : List Group),
      pushSelDownIndexScan
        (RuleBinding.mk
          (.selection (detachCondAndBuildRangeForIndex (selConds ++ acc) idxCols lens).remainedConds)
          rs2 cg2
          (.indexScan src2 dbl
            (detachCondAndBuildRangeForIndex (selConds ++ acc) idxCols lens).eqCondCount
            (detachCondAndBuildRangeForIndex (selConds ++ acc) idxCols lens).accessConds
            (detachCondAndBuildRangeForIndex (selConds ++ acc) idxCols lens).ranges
            idx idxCols lens s)
          cc2) = noRewrite) := by
  rcases b with ⟨rn, rs, cg, cn, cc⟩
  dsimp only at h1 h2
  subst h1
  subst h2
  constructor
  · intro hne hsame hrem
    simp [pushSelDownIndexScan, hne, hsame, hrem]
  · intro rs2 cg2 cc2
    by_cases hidx : idxCols = []
    · simp [pushSelDownIndexScan, hidx, noRewrite]
    · have hkey : (detachCondAndBuildRangeForIndex
          ((detachCondAndBuildRangeForIndex (selConds ++ acc) idxCols lens).remainedConds ++
           (detachCondAndBuildRangeForIndex (selConds ++ acc) idxCols lens).accessConds)
          idxCols lens).accessConds =
          (detachCondAndBuildRangeForIndex (selConds ++ acc) idxCols lens).accessConds := by
        simp [detachCondAndBuildRangeForIndex, List.filter_append, filter_not_filter,
          filter_filter_self]
      simp [pushSelDownIndexScan, hidx, hkey, noRewrite]

/-- C4 witness: on the Selection with one index-equality and one residual
predicate, the first application produces the Selection over the rewritten
scan, and the second application on that result yields no rewrite. -/
theorem c4_index_scan_pushdown_fixpoint_witness :
    (pushSelDownIndexScan bindC4).newExprs =
      [GroupExpr.mk (.selection [c4lt])
        [newGroupWithSchema
          (GroupExpr.mk (.indexScan 0 false 1 [c4eq] [c4eq] 0 [idxC1] [10] [idxC1, idxC2]) [])
          [idxC1, idxC2]]] ∧
    pushSelDownIndexScan
      (RuleBinding.mk (.selection [c4lt]) [idxC1, idxC2]
        (Group.mk [idxC1, idxC2] EngineType.tidb [])
        (.indexScan 0 false 1 [c4eq] [c4eq] 0 [idxC1] [10] [idxC1, idxC2]) []) = noRewrite := by
  have h := c4_index_scan_pushdown_fixpoint bindC4 [c4eq, c4lt] [] [] 0 false 0 0
    [idxC1] [10] [idxC1, idxC2] rfl rfl
  constructor
  · exact h.1 (by decide) (by decide) (by decide)
  · exact h.2 [idxC1, idxC2] (Group.mk [idxC1, idxC2] EngineType.tidb []) []

/-- C5 counterexample: a binding whose matched (upper) projection contains
a variable-assignment expression on which MergeAdjacentProjection still
produces a rewrite (one new GroupExpr, eraseOld true), because the rule
only guards the lower projection.  This refutes the claim as stated. -/
theorem c5_upper_projection_assignment_counterexample :
    bindC5cex.rootNode = .projection [Expr.assignVar "v" (.const (.vInt 1))] [colA] ∧
    hasAssignSetVarFunc (.assignVar "v" (.const (.vInt 1))) = true ∧
    (mergeAdjacentProjection bindC5cex).newExprs.length = 1 ∧
    (mergeAdjacentProjection bindC5cex).eraseOld = true :=
  ⟨rfl, rfl, rfl, rfl⟩

/-- C5 amended: for every binding whose child (lower) projection contains
a variable-assignment expression, MergeAdjacentProjection returns no
rewrite, and the Match checks of PushTopNDownProjection and
MergeAggregationProjection reject the binding. -/
theorem c5_assignment_guard_on_child_projection (b : RuleBinding)
    (exprs : List Expr) (s : Schema)
    (h1 : b.childNode = .projection exprs s)
    (h2 : exprs.any hasAssignSetVarFunc = true) :
    mergeAdjacentProjection b = noRewrite ∧
    pushTopNDownProjectionMatch b = false ∧
    mergeAggregationProjectionMatch b = false := by
  rcases b with ⟨rn, rs, cg, cn, cc⟩
  dsimp only at h1
  subst h1
  refine ⟨?_, ?_, ?_⟩
  · cases rn <;> simp [mergeAdjacentProjection, exprsHasSideEffects, h2, noRewrite]
  · simp [pushTopNDownProjectionMatch, h2]
  · simp [mergeAggregationProjectionMatch, exprsHasSideEffects, h2]

/-- C5 witness: on the binding whose lower projection assigns a variable,
all three rules refuse to rewrite. -/
theorem c5_assignment_guard_on_child_projection_witness :
    mergeAdjacentProjection bindC5w = noRewrite ∧
    pushTopNDownProjectionMatch bindC5w = false ∧
    mergeAggregationProjectionMatch bindC5w = false :=
  c5_assignment_guard_on_child_projection bindC5w [.assignVar "w" (.const (.vInt 2))] [colA]
    rfl (by decide)

/-- C6: evaluation at the failing input.  The TopN sorts by colX and the
projection maps colX to the constant 1, so the substituted sort key is a
constant.  The constant-removal loop assigns the filtered list to the OLD
TopN's ByItems field (which becomes empty), while the returned new TopN
keeps the constant sort key, contradicting the claim that the new TopN's
keys are the substituted keys minus constants and that the old TopN is
left unchanged. -/
theorem c6_topn_constant_sort_key_mutation :
    bindC6.rootNode = .topN 0 5 [ByItem.mk (.col colX) false] ∧
    (pushTopNDownProjection bindC6).2 = [] ∧
    (pushTopNDownProjection bindC6).1.newExprs =
      [GroupExpr.mk (.projection [.const (.vInt 1)] [colX])
        [Group.mk [⟨3⟩] EngineType.tidb
          [GroupExpr.mk (.topN 0 5 [ByItem.mk (.const (.vInt 1)) false]) [grpX]]]] ∧
    ([] : List ByItem) ≠ [ByItem.mk (.col colX) false] :=
  ⟨rfl, rfl, rfl, by decide⟩

/-- C7: PushAggDownGather's Match accepts an Aggregation-over-Gather
binding exactly when every aggregate function is in complete mode and the
storage-tier pushability check passes, and its rewrite returns the single
final-aggregation candidate with both erase flags false, so the original
single-stage aggregation stays in the Group. -/
theorem c7_agg_gather_match_and_keep_old (b : RuleBinding)
    (fs : List AggFuncDesc) (gby : List Expr) (src2 : Nat)
    (h1 : b.rootNode = .aggregation fs gby) (h2 : b.childNode = .tikvSingleGather src2) :
    pushAggDownGatherMatch b =
      (fs.all (fun f => f.mode == AggMode.complete) && checkAggCanPushCop fs gby) ∧
    (pushAggDownGather b).eraseOld = false ∧
    (pushAggDownGather b).eraseAll = false ∧
    (∃ ffs fgb g, (pushAggDownGather b).newExprs = [GroupExpr.mk (.aggregation ffs fgb) [g]]) := by
  rcases b with ⟨rn, rs, cg, cn, cc⟩
  dsimp only at h1 h2
  subst h1
  subst h2
  exact ⟨rfl, rfl, rfl, ⟨_, _, _, rfl⟩⟩

/-- C7 witness: a complete-mode pushable aggregation over a gather is
accepted by Match, and the rewrite keeps both erase flags false with one
new expression. -/
theorem c7_agg_gather_match_and_keep_old_witness :
    pushAggDownGatherMatch bindC7 = true ∧
    (pushAggDownGather bindC7).eraseOld = false ∧
    (pushAggDownGather bindC7).eraseAll = false ∧
    (pushAggDownGather bindC7).newExprs.length = 1 := by
  have h := c7_agg_gather_match_and_keep_old bindC7 [aggF] [.col colA] 1 rfl rfl
  refine ⟨?_, h.2.1, h.2.2.1, ?_⟩
  · rw [h.1]
    decide
  · obtain ⟨ffs, fgb, g, hg⟩ := h.2.2.2
    rw [hg]
    rfl

/-- C8: TransformLimitToTopN always rewrites a Limit-over-Sort binding
into exactly one TopN GroupExpr carrying the limit's offset and count and
the sort's by-items, whose single child is the sort's child Group, with
eraseOld true, eraseAll false and no error. -/
theorem c8_limit_sort_fusion (b : RuleBinding) (off cnt : Nat) (byItems : List ByItem)
    (h1 : b.rootNode = .limit off cnt) (h2 : b.childNode = .sort byItems) :
    transformLimitToTopN b =
      ⟨[GroupExpr.mk (.topN off cnt byItems) [b.gchild 0]], true, false, false⟩ := by
  rcases b with ⟨rn, rs, cg, cn, cc⟩
  dsimp only at h1 h2
  subst h1
  subst h2
  rfl

/-- C8 witness: the spec's example, Limit(offset 5, count 10) over
Sort(by colSort asc) over a scan, becomes TopN(5, 10, colSort asc) over
the scan with eraseOld true. -/
theorem c8_limit_sort_fusion_witness :
    transformLimitToTopN bindC8 =
      ⟨[GroupExpr.mk (.topN 5 10 [ByItem.mk (.col colSort) false]) [scanGrp]],
       true, false, false⟩ :=
  c8_limit_sort_fusion bindC8 5 10 [ByItem.mk (.col colSort) false] rfl rfl

/-- C9: evaluation at the failing input.  PushSelDownJoin mutates the
matched join's operator payload in place: on an inner join whose payload
carries one left condition, the payload after the call has an empty left
condition list, so the pre-existing memo content is not left unchanged. -/
theorem c9_join_payload_mutated_in_place :
    innerJoinC9.leftConds = [predLeft] ∧
    (pushSelDownJoin bindC9).2.leftConds = [] ∧
    (pushSelDownJoin bindC9).2 ≠ innerJoinC9 := by
  refine ⟨rfl, rfl, ?_⟩
  decide

/-- C10: for every Selection-over-Join binding whose join type is not
inner, Match still accepts the binding and OnTransform returns, without
error, a single new join GroupExpr with eraseOld true whose condition
lists and children equal the old join's, and none of the matched
Selection's conditions is added anywhere. -/
theorem c10_non_inner_join_ignores_selection (b : RuleBinding)
    (selConds : List Expr) (j : JoinNode)
    (h1 : b.rootNode = .selection selConds) (h2 : b.childNode = .join j)
    (h3 : j.tp ≠ JoinType.inner) :
    baseRuleMatch b = true ∧
    (pushSelDownJoin b).1.newExprs =
      [GroupExpr.mk (.join { j with leftKeys := j.leftKeys ++ j.equalConds.map eqArg0,
                                    rightKeys := j.rightKeys ++ j.equalConds.map eqArg1 })
        [b.gchild 0, b.gchild 1]] ∧
    (pushSelDownJoin b).1.eraseOld = true ∧
    (pushSelDownJoin b).1.eraseAll = false ∧
    (pushSelDownJoin b).1.err = false ∧
    ((pushSelDownJoin b).2.leftConds = j.leftConds ∧
     (pushSelDownJoin b).2.rightConds = j.rightConds ∧
     (pushSelDownJoin b).2.equalConds = j.equalConds ∧
     (pushSelDownJoin b).2.otherConds = j.otherConds) ∧
    (∀ c ∈ selConds, c ∉ j.leftConds ++ j.rightConds ++ j.equalConds ++ j.otherConds →
      c ∉ (pushSelDownJoin b).2.leftConds ++ (pushSelDownJoin b).2.rightConds ++
          (pushSelDownJoin b).2.equalConds ++ (pushSelDownJoin b).2.otherConds) := by
  rcases b with ⟨rn, rs, cg, cn, cc⟩
  dsimp only at h1 h2
  subst h1
  subst h2
  have key : pushSelDownJoin ⟨.selection selConds, rs, cg, .join j, cc⟩ =
      (⟨[GroupExpr.mk (.join { j with leftKeys := j.leftKeys ++ j.equalConds.map eqArg0,
                                      rightKeys := j.rightKeys ++ j.equalConds.map eqArg1 })
          [childG cc 0, childG cc 1]], true, false, false⟩,
       { j with leftKeys := j.leftKeys ++ j.equalConds.map eqArg0,
                rightKeys := j.rightKeys ++ j.equalConds.map eqArg1 }) := by
    simp [pushSelDownJoin, h3, RuleBinding.gchild]
  rw [key]
  exact ⟨rfl, rfl, rfl, rfl, rfl, ⟨rfl, rfl, rfl, rfl⟩, fun c _ hn => hn⟩

/-- C10 witness: a Selection with one predicate over a left outer join is
rewritten to the unchanged join with eraseOld true and unchanged condition
lists. -/
theorem c10_non_inner_join_ignores_selection_witness :
    baseRuleMatch bindC10 = true ∧
    (pushSelDownJoin bindC10).1.newExprs =
      [GroupExpr.mk (.join jC10) [grpC10L, grpC10R]] ∧
    (pushSelDownJoin bindC10).1.eraseOld = true ∧
    (pushSelDownJoin bindC10).2.leftConds = jC10.leftConds := by
  have h := c10_non_inner_join_ignores_selection bindC10 [predC10] jC10 rfl rfl (by decide)
  exact ⟨h.1, h.2.1, h.2.2.1, h.2.2.2.2.2.1.1⟩

end Cascades
